import Mathlib

/-!
Shallow embedding of the photo-tagging backend (src/main.py, src/schemas.py).

Photo and person documents are modelled as Lean structures; the Mongo
document store (accessed through `database.py`, which is not part of the
sources, and through pymongo) is modelled as explicit lists of documents
in insertion order, with the find/update/insert operations those handlers
use translated to explicit list transformations.

Timestamps are modelled as opaque `Nat` instants; the handlers only ever
store the current instant and compare documents for equality, so no
arithmetic on instants is needed.
-/

namespace PhotoSorter

/-- A photo document as created by the handlers in src/main.py: `place` and
`year` are optional fields (null when absent on creation), `people` is the
list of tagged names in storage order. `createdAt`/`updatedAt` are the
server-assigned instants (`none` when the field is absent). -/
structure Photo where
  url : String
  filename : String
  place : Option String
  year : Option Int
  people : List String
  createdAt : Option Nat := none
  updatedAt : Option Nat := none
deriving DecidableEq

/-- A person document. `aliasVal` models the `alias` field: `none` when the
field is absent from the document (as for persons upserted by
`identify_people` or `seed_mock`), `some a` when the field is present with
value `a` (possibly null, as set by `create_person`). -/
structure Person where
  name : String
  aliasVal : Option (Option String)
  photoCount : Int
deriving DecidableEq

/-- The document store: the `photo` and `person` collections in insertion
order. -/
structure DB where
  photos : List Photo
  persons : List Person
deriving DecidableEq

/-- Helper for `int(s)` digit parsing: `none` when the character list is
empty or contains a non-digit. -/
def digitsToNat (l : List Char) : Option Nat :=
  match l with
  | [] => none
  | _ =>
    if l.all Char.isDigit then
      some (l.foldl (fun acc c => acc * 10 + (c.toNat - 48)) 0)
    else none

/-- Modelled from the spec: Python `int(s)` applied to a string (the
`int(year)` conversion in `list_photos`), returning `none` when the
conversion raises. An optional sign followed by decimal digits is
accepted. -/
def pyIntOfStr (s : String) : Option Int :=
  match s.data with
  | '-' :: rest => (digitsToNat rest).map (fun n => -(n : Int))
  | '+' :: rest => (digitsToNat rest).map (fun n => (n : Int))
  | l => (digitsToNat l).map (fun n => (n : Int))

/-- The `year` query parameter as the body of `list_photos` treats it:
either an integer or a raw string. -/
inductive YearArg
  | int (n : Int)
  | str (s : String)
deriving DecidableEq

/-- Modelled from the spec: the test `str(year) != ""` in `list_photos`
line 92. Python `str` of an integer is never the empty string, so only a
string-valued argument can fail the test. -/
def yearArgStrNonempty : YearArg → Bool
  | .int _ => true
  | .str s => s != ""

/-- Modelled from the spec: Python `int(year)` in `list_photos` line 94,
`none` when the conversion raises. -/
def yearArgInt : YearArg → Option Int
  | .int n => some n
  | .str s => pyIntOfStr s

/-- The Mongo filter dictionary built by `list_photos`: each field is
present exactly when the corresponding condition was added to
`filter_dict`. -/
structure PhotoFilter where
  place : Option String := none
  year : Option Int := none
  person : Option String := none
deriving DecidableEq

/-- Filter construction of `list_photos` (src/main.py lines 89-98):
`place` and `person` are added when truthy (non-`None` and non-empty),
`year` when it is not `None`, `str(year)` is non-empty and `int(year)`
succeeds; an `int(year)` failure is swallowed by the bare `except`. -/
def buildFilter (place : Option String) (year : Option YearArg)
    (person : Option String) : PhotoFilter :=
  let f : PhotoFilter := {}
  let f : PhotoFilter :=
    match place with
    | some s => if s != "" then { f with place := some s } else f
    | none => f
  let f : PhotoFilter :=
    match year with
    | some y =>
      if yearArgStrNonempty y then
        match yearArgInt y with
        | some n => { f with year := some n }
        | none => f
      else f
    | none => f
  match person with
  | some s => if s != "" then { f with person := some s } else f
  | none => f

/-- Modelled from the spec: Mongo matching of a photo document against the
filter dictionary — equality on `place` and `year`, `$in`-membership on
`people`. -/
def matchesFilter (f : PhotoFilter) (p : Photo) : Bool :=
  (match f.place with | some s => p.place == some s | none => true) &&
  (match f.year with | some n => p.year == some n | none => true) &&
  (match f.person with | some s => p.people.contains s | none => true)

/-- Modelled from the spec: `get_documents` (database.py, which is not in
src/) returns up to `limit` matching documents in insertion order. -/
def getPhotoDocuments (photos : List Photo) (f : PhotoFilter) (limit : Nat) :
    List Photo :=
  (photos.filter (fun p => matchesFilter f p)).take limit

/-- Handler `list_photos` (src/main.py lines 86-102), returning the matched
documents; serialization of the response is modelled separately. -/
def listPhotos (db : DB) (place : Option String) (year : Option YearArg)
    (person : Option String) (limit : Nat) : List Photo :=
  getPhotoDocuments db.photos (buildFilter place year person) limit

/-- Stated from the claim, for comparison with the implementation: a photo
matches when its place equals the supplied place (when supplied), its year
equals the supplied year (when supplied), and the supplied person (when
supplied) is a member of its people list; absent parameters impose no
constraint. -/
def specMatches (place : Option String) (year : Option Int)
    (person : Option String) (p : Photo) : Bool :=
  (place.all fun s => p.place == some s) &&
  (year.all fun n => p.year == some n) &&
  (person.all fun s => p.people.contains s)

/-- Sample photo used by concrete witnesses. -/
def annPhoto : Photo :=
  { url := "u1", filename := "f1", place := some "Paris", year := some 2022,
    people := ["Ann", "Bo"] }

/-- Second sample photo used by concrete witnesses. -/
def boPhoto : Photo :=
  { url := "u2", filename := "f2", place := some "Rome", year := some 2021,
    people := ["Bo"] }

/-- Sample store used by concrete witnesses. -/
def sampleDB : DB := { photos := [annPhoto, boPhoto], persons := [] }

theorem buildFilter_int (place : Option String) (year : Option Int)
    (person : Option String) (hp : place ≠ some "") (hq : person ≠ some "") :
    buildFilter place (year.map YearArg.int) person
      = { place := place, year := year, person := person } := by
  cases place with
  | none =>
    cases person with
    | none => cases year <;> rfl
    | some s =>
      have hs : s ≠ "" := fun h => hq (by simp [h])
      cases year <;>
        simp [buildFilter, yearArgStrNonempty, yearArgInt, hs]
  | some s =>
    have hs : s ≠ "" := fun h => hp (by simp [h])
    cases person with
    | none =>
      cases year <;>
        simp [buildFilter, yearArgStrNonempty, yearArgInt, hs]
    | some t =>
      have ht : t ≠ "" := fun h => hq (by simp [h])
      cases year <;>
        simp [buildFilter, yearArgStrNonempty, yearArgInt, hs, ht]

theorem matchesFilter_eq_specMatches (place : Option String)
    (year : Option Int) (person : Option String) (p : Photo) :
    matchesFilter { place := place, year := year, person := person } p
      = specMatches place year person p := by
  cases place <;> cases year <;> cases person <;>
    simp [matchesFilter, specMatches, Option.all]

/-- C1: all supplied filters of `list_photos` combine conjunctively: the
result is the prefix, cut at `limit`, of the photos whose place equals the
supplied place (when supplied), whose year equals the supplied year (when
supplied) and whose people list contains the supplied person (when
supplied); absent parameters impose no constraint, and at most `limit`
records are returned. (Empty-string parameters are treated as absent —
claim C9.) -/
theorem listPhotos_conjunctive (db : DB) (place : Option String)
    (year : Option Int) (person : Option String) (limit : Nat)
    (hp : place ≠ some "") (hq : person ≠ some "") :
    listPhotos db place (year.map YearArg.int) person limit
      = (db.photos.filter (fun p => specMatches place year person p)).take limit
    ∧ (listPhotos db place (year.map YearArg.int) person limit).length ≤ limit := by
  have h1 : listPhotos db place (year.map YearArg.int) person limit
      = (db.photos.filter (fun p => specMatches place year person p)).take limit := by
    unfold listPhotos getPhotoDocuments
    rw [buildFilter_int place year person hp hq]
    congr 1
    exact List.filter_congr fun p _ =>
      matchesFilter_eq_specMatches place year person p
  exact ⟨h1, by rw [h1]; exact List.length_take_le _ _⟩

/-- Witness for C1 at a concrete store and fully supplied filters. -/
theorem listPhotos_conjunctive_witness :
    listPhotos sampleDB (some "Paris") ((some (2022 : Int)).map YearArg.int)
        (some "Ann") 10
      = (sampleDB.photos.filter
          (fun p => specMatches (some "Paris") (some 2022) (some "Ann") p)).take 10
    ∧ (listPhotos sampleDB (some "Paris") ((some (2022 : Int)).map YearArg.int)
        (some "Ann") 10).length ≤ 10 :=
  listPhotos_conjunctive sampleDB (some "Paris") (some 2022) (some "Ann") 10
    (by decide) (by decide)

/-- C4: a `year` parameter that is supplied but not parseable as an integer
is silently dropped: the result of `list_photos` is the same as for the
query without any year filter, and no error is raised (the embedded handler
is total). -/
theorem listPhotos_unparseable_year_dropped (db : DB) (place : Option String)
    (person : Option String) (limit : Nat) (s : String)
    (h : pyIntOfStr s = none) :
    listPhotos db place (some (YearArg.str s)) person limit
      = listPhotos db place none person limit := by
  unfold listPhotos
  congr 1
  by_cases hs : s = ""
  · simp [buildFilter, yearArgStrNonempty, hs]
  · simp [buildFilter, yearArgStrNonempty, yearArgInt, hs, h]

/-- Witness for C4 at a concrete store and the unparseable year "abc". -/
theorem listPhotos_unparseable_year_dropped_witness :
    listPhotos sampleDB (some "Paris") (some (YearArg.str "abc")) none 10
      = listPhotos sampleDB (some "Paris") none none 10 :=
  listPhotos_unparseable_year_dropped sampleDB (some "Paris") none 10 "abc"
    (by decide)

/-- C9: an empty-string `place` or `person` parameter is treated as absent
by `list_photos`: it imposes no filter constraint. -/
theorem listPhotos_empty_string_params (db : DB) (place : Option String)
    (year : Option YearArg) (person : Option String) (limit : Nat) :
    listPhotos db (some "") year person limit
        = listPhotos db none year person limit
    ∧ listPhotos db place year (some "") limit
        = listPhotos db place year none limit := by
  constructor
  · unfold listPhotos
    congr 1
  · unfold listPhotos
    congr 1

/-- Truthiness filter of the list comprehension `[p for p in places if p]` in
`get_filters` line 167: `None` and the empty string are dropped. -/
def keepTruthyStr : Option String → Option String
  | some s => if s != "" then some s else none
  | none => none

/-- Handler `get_filters` (src/main.py lines 149-173) as the triple
`(places, years, people)`. The `$group`/`$addToSet` aggregation over the
photo collection yields no row when the collection is empty (the `if agg:`
branch) and otherwise one row whose `places`/`years` hold the deduplicated
field values; the comprehension keeps truthy places and non-`None` years;
`people` is the list of names of the person collection; each list is then
passed through Python `sorted`, modelled by `List.insertionSort`. -/
def getFilters (db : DB) : List String × List Int × List String :=
  let pair : List String × List Int :=
    match db.photos with
    | [] => ([], [])
    | _ :: _ =>
      let placesRaw := (db.photos.map Photo.place).dedup
      let yearsRaw := (db.photos.map Photo.year).dedup
      (placesRaw.filterMap keepTruthyStr, yearsRaw.filterMap id)
  (pair.1.insertionSort (· ≤ ·), pair.2.insertionSort (· ≤ ·),
    (db.persons.map Person.name).insertionSort (· ≤ ·))

theorem keepTruthyStr_eq_some {o : Option String} {s : String} :
    keepTruthyStr o = some s ↔ o = some s ∧ s ≠ "" := by
  cases o with
  | none => simp [keepTruthyStr]
  | some t =>
    rcases eq_or_ne t "" with rfl | ht
    · simp only [keepTruthyStr]
      simp
      intro h
      exact h.symm
    · simp only [keepTruthyStr]
      simp [ht]
      intro h
      rw [← h]
      exact ht

/-- C2 (amended): `get_filters` returns the distinct non-empty places and
the distinct non-null years across all photos, each deduplicated and
sorted ascending; `people` is sorted ascending but is a permutation of the
names of all person records, so a name is repeated when several person
records carry it. -/
theorem getFilters_spec (db : DB) :
    ((getFilters db).1.Sorted (· ≤ ·) ∧ (getFilters db).1.Nodup
      ∧ ∀ s : String,
          s ∈ (getFilters db).1 ↔ some s ∈ db.photos.map Photo.place ∧ s ≠ "")
    ∧ ((getFilters db).2.1.Sorted (· ≤ ·) ∧ (getFilters db).2.1.Nodup
      ∧ ∀ n : Int, n ∈ (getFilters db).2.1 ↔ some n ∈ db.photos.map Photo.year)
    ∧ ((getFilters db).2.2.Sorted (· ≤ ·)
      ∧ (getFilters db).2.2.Perm (db.persons.map Person.name)) := by
  obtain ⟨photos, persons⟩ := db
  cases photos with
  | nil =>
    refine ⟨⟨?_, ?_, ?_⟩, ⟨?_, ?_, ?_⟩, ?_, ?_⟩
    · exact List.sorted_insertionSort _ _
    · simp [getFilters]
    · intro s
      simp [getFilters]
    · exact List.sorted_insertionSort _ _
    · simp [getFilters]
    · intro n
      simp [getFilters]
    · exact List.sorted_insertionSort _ _
    · exact List.perm_insertionSort _ _
  | cons p rest =>
    refine ⟨⟨?_, ?_, ?_⟩, ⟨?_, ?_, ?_⟩, ?_, ?_⟩
    · exact List.sorted_insertionSort _ _
    · refine ((List.perm_insertionSort _ _).nodup_iff).2 ?_
      refine List.Nodup.filterMap ?_ (List.nodup_dedup _)
      intro a a' b hb hb'
      rw [Option.mem_def, keepTruthyStr_eq_some] at hb hb'
      rw [hb.1, hb'.1]
    · intro s
      simp only [getFilters, List.mem_insertionSort, List.mem_filterMap,
        List.mem_dedup, keepTruthyStr_eq_some]
      constructor
      · rintro ⟨a, ha, rfl, hs⟩
        exact ⟨ha, hs⟩
      · rintro ⟨ha, hs⟩
        exact ⟨some s, ha, rfl, hs⟩
    · exact List.sorted_insertionSort _ _
    · refine ((List.perm_insertionSort _ _).nodup_iff).2 ?_
      refine List.Nodup.filterMap ?_ (List.nodup_dedup _)
      intro a a' b hb hb'
      rw [Option.mem_def] at hb hb'
      simp only [id] at hb hb'
      rw [hb, hb']
    · intro n
      simp only [getFilters, List.mem_insertionSort, List.mem_filterMap,
        List.mem_dedup, id]
      constructor
      · rintro ⟨a, ha, rfl⟩
        exact ha
      · intro ha
        exact ⟨some n, ha, rfl⟩
    · exact List.sorted_insertionSort _ _
    · exact List.perm_insertionSort _ _

/-- Store holding two person records with the same name, as two calls to
`create_person` produce (`create_person` inserts unconditionally). -/
def dupPersonDB : DB :=
  { photos := [],
    persons := [{ name := "A", aliasVal := some none, photoCount := 0 },
                { name := "A", aliasVal := some none, photoCount := 0 }] }

/-- C2 counterexample: on a store with two person records named "A",
`get_filters` returns the people list `["A", "A"]`, which is not
deduplicated — refuting the claim that each of the three output lists is
deduplicated. -/
theorem getFilters_people_not_deduplicated :
    (getFilters dupPersonDB).2.2 = ["A", "A"]
    ∧ ¬ (getFilters dupPersonDB).2.2.Nodup := by
  have h : (getFilters dupPersonDB).2.2 = ["A", "A"] := by
    simp [getFilters, dupPersonDB, List.insertionSort, List.orderedInsert]
  refine ⟨h, ?_⟩
  rw [h]
  simp

/-- C7: `get_filters` on a store with no photo records and no person
records returns three empty lists rather than an error (the embedded
handler is total). -/
theorem getFilters_empty_store :
    getFilters { photos := [], persons := [] } = ([], [], []) := rfl

/-- Number of occurrences of `n` in a list of names. -/
def countOcc (xs : List String) (n : String) : Nat :=
  match xs with
  | [] => 0
  | x :: rest => (if x = n then 1 else 0) + countOcc rest n

/-- Modelled from the spec: Mongo `$addToSet` with `$each` — every supplied
name that is not already in the list is appended, in order; names already
present are left untouched. -/
def addToSet (xs : List String) (names : List String) : List String :=
  names.foldl (fun acc n => if n ∈ acc then acc else acc ++ [n]) xs

/-- Modelled from the spec: pymongo `update_one` on the photo collection as
used by `identify_people` line 139 — the first document whose `url` equals
`u` gets `$addToSet people $each names` and `$set updated_at now`; the
returned pair is `(matched_count, modified_count)`, where a matched
document counts as modified only when the update actually changed it. -/
def updateFirstPhotoByUrl (photos : List Photo) (u : String)
    (names : List String) (now : Nat) : List Photo × Nat × Nat :=
  match photos with
  | [] => ([], 0, 0)
  | p :: rest =>
    if p.url = u then
      let p' : Photo := { p with people := addToSet p.people names,
                                 updatedAt := some now }
      (p' :: rest, 1, if p' = p then 0 else 1)
    else
      let r := updateFirstPhotoByUrl rest u names now
      (p :: r.1, r.2.1, r.2.2)

/-- Modelled from the spec: pymongo `update_one` with `$inc photo_count 1`
and `upsert=True` on the person collection (`identify_people` line 142) —
the first person named `n` gets its count incremented; when none exists a
document holding only the queried `name` and the incremented counter
(value 1) is inserted. -/
def incPerson (ps : List Person) (n : String) : List Person :=
  match ps with
  | [] => [{ name := n, aliasVal := none, photoCount := 1 }]
  | p :: rest =>
    if p.name = n then { p with photoCount := p.photoCount + 1 } :: rest
    else p :: incPerson rest n

/-- The person-counter loop of `identify_people` lines 141-142: one upsert
per supplied name, in order. -/
def incPersons (ps : List Person) (names : List String) : List Person :=
  names.foldl incPerson ps

/-- Handler `identify_people` (src/main.py lines 133-145): update the photo
matched by exact url, then increment each supplied person's counter;
returns the new store and the `(matched, modified)` response. -/
def identifyPeople (db : DB) (photoUrl : String) (names : List String)
    (now : Nat) : DB × Nat × Nat :=
  let r := updateFirstPhotoByUrl db.photos photoUrl names now
  ({ photos := r.1, persons := incPersons db.persons names }, r.2.1, r.2.2)

/-- Modelled from the spec: Mongo `find_one` by exact url — the first photo
document whose `url` equals `u`. -/
def findPhotoByUrl (photos : List Photo) (u : String) : Option Photo :=
  match photos with
  | [] => none
  | p :: rest => if p.url = u then some p else findPhotoByUrl rest u

/-- The `photo_count` of the first person document named `n`, `none` when
no such document exists. -/
def firstPersonCount (ps : List Person) (n : String) : Option Int :=
  match ps with
  | [] => none
  | p :: rest =>
    if p.name = n then some p.photoCount else firstPersonCount rest n

/-- Combined effect of `k` unconditional increments on an optional counter:
unchanged when `k = 0`, otherwise the old value (0 when the record was
absent) plus `k`. -/
def optCount (o : Option Int) (k : Nat) : Option Int :=
  if k = 0 then o else some (o.getD 0 + (k : Int))

theorem countOcc_eq_zero (xs : List String) (n : String) (h : n ∉ xs) :
    countOcc xs n = 0 := by
  induction xs with
  | nil => rfl
  | cons x rest ih =>
    have hx : x ≠ n := fun hxn => h (hxn ▸ List.mem_cons_self x rest)
    have hr : n ∉ rest := fun hm => h (List.mem_cons_of_mem x hm)
    simp [countOcc, hx, ih hr]

theorem countOcc_pos (xs : List String) (n : String) (h : n ∈ xs) :
    1 ≤ countOcc xs n := by
  induction xs with
  | nil => cases h
  | cons x rest ih =>
    rcases List.mem_cons.1 h with rfl | hm
    · simp [countOcc]
    · by_cases hx : x = n
      · simp [countOcc, hx]
      · simpa [countOcc, hx] using ih hm

theorem countOcc_append_singleton (xs : List String) (m n : String) :
    countOcc (xs ++ [m]) n = countOcc xs n + (if m = n then 1 else 0) := by
  induction xs with
  | nil => simp [countOcc]
  | cons x rest ih => simp [countOcc, ih]; omega

theorem countOcc_le_one_of_nodup (xs : List String) (n : String)
    (h : xs.Nodup) : countOcc xs n ≤ 1 := by
  induction xs with
  | nil => simp [countOcc]
  | cons x rest ih =>
    rw [List.nodup_cons] at h
    by_cases hx : x = n
    · subst hx
      simp [countOcc, countOcc_eq_zero rest x h.1]
    · simpa [countOcc, hx] using ih h.2

theorem countOcc_addToSet (xs names : List String) (n : String) :
    countOcc (addToSet xs names) n
      = if n ∈ names then max (countOcc xs n) 1 else countOcc xs n := by
  induction names generalizing xs with
  | nil => simp [addToSet]
  | cons m rest ih =>
    have hstep : addToSet xs (m :: rest)
        = addToSet (if m ∈ xs then xs else xs ++ [m]) rest := by
      simp [addToSet]
    rw [hstep, ih]
    by_cases hmx : m ∈ xs
    · simp only [if_pos hmx]
      by_cases hmn : m = n
      · subst hmn
        have h1 : 1 ≤ countOcc xs m := countOcc_pos xs m hmx
        by_cases hr : m ∈ rest <;> simp [hr] <;> omega
      · by_cases hr : n ∈ rest <;>
          simp [hr, hmn, List.mem_cons, Ne.symm hmn]
    · simp only [if_neg hmx]
      by_cases hmn : m = n
      · subst hmn
        have h0 : countOcc xs m = 0 := countOcc_eq_zero xs m hmx
        rw [countOcc_append_singleton]
        by_cases hr : m ∈ rest <;> simp [hr, h0] <;> omega
      · rw [countOcc_append_singleton]
        by_cases hr : n ∈ rest <;>
          simp [hr, hmn, List.mem_cons, Ne.symm hmn]

theorem mem_addToSet (xs names : List String) (n : String) :
    n ∈ addToSet xs names ↔ n ∈ xs ∨ n ∈ names := by
  induction names generalizing xs with
  | nil => simp [addToSet]
  | cons m rest ih =>
    have hstep : addToSet xs (m :: rest)
        = addToSet (if m ∈ xs then xs else xs ++ [m]) rest := by
      simp [addToSet]
    rw [hstep]
    by_cases hmx : m ∈ xs
    · rw [if_pos hmx, ih]
      constructor
      · rintro (h | h)
        · exact Or.inl h
        · exact Or.inr (List.mem_cons_of_mem m h)
      · rintro (h | h)
        · exact Or.inl h
        · rcases List.mem_cons.1 h with rfl | h
          · exact Or.inl hmx
          · exact Or.inr h
    · rw [if_neg hmx, ih]
      simp only [List.mem_append, List.mem_singleton, List.mem_cons]
      tauto

theorem updateFirstPhotoByUrl_spec (photos : List Photo) (u : String)
    (names : List String) (now : Nat) (p : Photo)
    (hp : findPhotoByUrl photos u = some p) :
    findPhotoByUrl (updateFirstPhotoByUrl photos u names now).1 u
        = some { p with people := addToSet p.people names, updatedAt := some now }
    ∧ (updateFirstPhotoByUrl photos u names now).2.1 = 1
    ∧ (updateFirstPhotoByUrl photos u names now).2.2
        = (if { p with people := addToSet p.people names,
                       updatedAt := some now } = p then 0 else 1) := by
  induction photos with
  | nil => simp [findPhotoByUrl] at hp
  | cons q rest ih =>
    by_cases hq : q.url = u
    · rw [findPhotoByUrl, if_pos hq] at hp
      injection hp with hp
      subst hp
      constructor
      · simp only [updateFirstPhotoByUrl, if_pos hq]
        rw [findPhotoByUrl, if_pos]
        exact hq
      constructor
      · simp [updateFirstPhotoByUrl, if_pos hq]
      · simp [updateFirstPhotoByUrl, if_pos hq]
    · rw [findPhotoByUrl, if_neg hq] at hp
      have h := ih hp
      simp only [updateFirstPhotoByUrl, if_neg hq]
      refine ⟨?_, h.2.1, h.2.2⟩
      rw [findPhotoByUrl, if_neg hq]
      exact h.1

theorem firstPersonCount_incPerson_same (ps : List Person) (n : String) :
    firstPersonCount (incPerson ps n) n
      = some ((firstPersonCount ps n).getD 0 + 1) := by
  induction ps with
  | nil => simp [incPerson, firstPersonCount]
  | cons p rest ih =>
    by_cases h : p.name = n
    · simp [incPerson, firstPersonCount, h]
    · simp [incPerson, firstPersonCount, h, ih]

theorem firstPersonCount_incPerson_ne (ps : List Person) (n m : String)
    (h : m ≠ n) :
    firstPersonCount (incPerson ps n) m = firstPersonCount ps m := by
  induction ps with
  | nil => simp [incPerson, firstPersonCount, Ne.symm h]
  | cons p rest ih =>
    by_cases hp : p.name = n
    · simp [incPerson, firstPersonCount, hp, Ne.symm h]
    · simp [incPerson, firstPersonCount, hp, ih]

theorem firstPersonCount_incPersons (ps : List Person) (names : List String)
    (n : String) :
    firstPersonCount (incPersons ps names) n
      = optCount (firstPersonCount ps n) (countOcc names n) := by
  induction names generalizing ps with
  | nil => simp [incPersons, optCount, countOcc]
  | cons m rest ih =>
    have hstep : incPersons ps (m :: rest) = incPersons (incPerson ps m) rest := by
      simp [incPersons]
    rw [hstep, ih]
    by_cases hm : m = n
    · subst hm
      rw [firstPersonCount_incPerson_same]
      cases hps : firstPersonCount ps m <;>
        by_cases hk : countOcc rest m = 0 <;>
          simp [optCount, countOcc, hk] <;> omega
    · rw [firstPersonCount_incPerson_ne ps m n (Ne.symm hm)]
      have : countOcc (m :: rest) n = countOcc rest n := by
        simp [countOcc, hm]
      rw [this]

/-- C3: for every identify request, every supplied name's `photo_count` is
incremented by exactly one per occurrence in the supplied list,
unconditionally — independent of the photo's current people list — with a
person record created on demand at the incremented count when absent; in
particular, identifying the single name `name` against the same photo
twice leaves the name in the photo's people list exactly once (given it
was listed at most once before) while incrementing that person's
`photo_count` twice. -/
theorem identifyPeople_increments_unconditionally
    (db : DB) (u : String) (names : List String) (name : String)
    (now now' : Nat) (p : Photo)
    (hp : findPhotoByUrl db.photos u = some p)
    (honce : countOcc p.people name ≤ 1) :
    (firstPersonCount ((identifyPeople db u names now).1).persons name
        = optCount (firstPersonCount db.persons name) (countOcc names name))
    ∧ (firstPersonCount db.persons name = none → name ∈ names →
        firstPersonCount ((identifyPeople db u names now).1).persons name
          = some ((countOcc names name : Nat) : Int))
    ∧ countOcc (addToSet (addToSet p.people [name]) [name]) name = 1
    ∧ findPhotoByUrl
        ((identifyPeople (identifyPeople db u [name] now).1 u [name] now').1).photos u
        = some { p with people := addToSet (addToSet p.people [name]) [name],
                        updatedAt := some now' }
    ∧ firstPersonCount
        ((identifyPeople (identifyPeople db u [name] now).1 u [name] now').1).persons name
        = some ((firstPersonCount db.persons name).getD 0 + 2) := by
  have hpersons : ∀ ns nw, ((identifyPeople db u ns nw).1).persons
      = incPersons db.persons ns := fun ns nw => rfl
  have hcount1 : firstPersonCount ((identifyPeople db u names now).1).persons name
      = optCount (firstPersonCount db.persons name) (countOcc names name) := by
    rw [hpersons, firstPersonCount_incPersons]
  refine ⟨hcount1, ?_, ?_, ?_, ?_⟩
  · intro habs hmem
    rw [hcount1, habs]
    have hk : countOcc names name ≠ 0 := by
      have := countOcc_pos names name hmem
      omega
    simp [optCount, hk]
  · have hm : name ∈ [name] := List.mem_singleton_self name
    rw [countOcc_addToSet, if_pos hm, countOcc_addToSet, if_pos hm]
    omega
  · have h1 := updateFirstPhotoByUrl_spec db.photos u [name] now p hp
    have h2 := updateFirstPhotoByUrl_spec
      ((identifyPeople db u [name] now).1).photos u [name] now'
      { p with people := addToSet p.people [name], updatedAt := some now }
      h1.1
    exact h2.1
  · have hd1 : ((identifyPeople (identifyPeople db u [name] now).1 u [name] now').1).persons
        = incPersons (incPersons db.persons [name]) [name] := rfl
    rw [hd1, firstPersonCount_incPersons, firstPersonCount_incPersons]
    have hone : countOcc [name] name = 1 := by simp [countOcc]
    rw [hone]
    cases firstPersonCount db.persons name <;> simp [optCount] <;> omega

/-- Witness for C3 at a concrete store: photo "u1" exists, "Cara" is not
yet tagged on it and has no person record. -/
theorem identifyPeople_increments_unconditionally_witness :
    (firstPersonCount ((identifyPeople sampleDB "u1" ["Cara", "Dan"] 3).1).persons "Cara"
        = optCount (firstPersonCount sampleDB.persons "Cara")
            (countOcc ["Cara", "Dan"] "Cara"))
    ∧ (firstPersonCount sampleDB.persons "Cara" = none → "Cara" ∈ ["Cara", "Dan"] →
        firstPersonCount ((identifyPeople sampleDB "u1" ["Cara", "Dan"] 3).1).persons "Cara"
          = some ((countOcc ["Cara", "Dan"] "Cara" : Nat) : Int))
    ∧ countOcc (addToSet (addToSet annPhoto.people ["Cara"]) ["Cara"]) "Cara" = 1
    ∧ findPhotoByUrl
        ((identifyPeople (identifyPeople sampleDB "u1" ["Cara"] 3).1 "u1" ["Cara"] 4).1).photos "u1"
        = some { annPhoto with people := addToSet (addToSet annPhoto.people ["Cara"]) ["Cara"], updatedAt := some 4 }
    ∧ firstPersonCount
        ((identifyPeople (identifyPeople sampleDB "u1" ["Cara"] 3).1 "u1" ["Cara"] 4).1).persons "Cara"
        = some ((firstPersonCount sampleDB.persons "Cara").getD 0 + 2) :=
  identifyPeople_increments_unconditionally sampleDB "u1" ["Cara", "Dan"] "Cara"
    3 4 annPhoto (by decide) (by decide)

/-- C5: for every identify request whose url matches a photo, that photo's
people list becomes the set-union of its old people and the supplied
names (a name already present is not duplicated, a new name is appended),
its `updated_at` is stamped with the current instant, and the response
reports one matched record and whether the update actually modified it. -/
theorem identifyPeople_photo_update
    (db : DB) (u : String) (names : List String) (now : Nat) (p : Photo)
    (n : String)
    (hp : findPhotoByUrl db.photos u = some p) :
    findPhotoByUrl ((identifyPeople db u names now).1).photos u
        = some { p with people := addToSet p.people names, updatedAt := some now }
    ∧ (n ∈ addToSet p.people names ↔ (n ∈ p.people ∨ n ∈ names))
    ∧ (n ∈ names → countOcc (addToSet p.people names) n
          = max (countOcc p.people n) 1)
    ∧ (n ∉ names → countOcc (addToSet p.people names) n = countOcc p.people n)
    ∧ (identifyPeople db u names now).2.1 = 1
    ∧ ((identifyPeople db u names now).2.2
        = if { p with people := addToSet p.people names,
                      updatedAt := some now } = p then 0 else 1) := by
  have h := updateFirstPhotoByUrl_spec db.photos u names now p hp
  refine ⟨h.1, mem_addToSet p.people names n, ?_, ?_, h.2.1, h.2.2⟩
  · intro hn
    rw [countOcc_addToSet, if_pos hn]
  · intro hn
    rw [countOcc_addToSet, if_neg hn]

/-- Witness for C5 at a concrete store: photo "u1" has people
["Ann", "Bo"]; we identify ["Ann", "Cara"], so "Ann" is not duplicated
and "Cara" is appended. -/
theorem identifyPeople_photo_update_witness :
    findPhotoByUrl ((identifyPeople sampleDB "u1" ["Ann", "Cara"] 5).1).photos "u1"
        = some { annPhoto with people := addToSet annPhoto.people ["Ann", "Cara"], updatedAt := some 5 }
    ∧ ("Ann" ∈ addToSet annPhoto.people ["Ann", "Cara"]
        ↔ ("Ann" ∈ annPhoto.people ∨ "Ann" ∈ ["Ann", "Cara"]))
    ∧ ("Ann" ∈ ["Ann", "Cara"] → countOcc (addToSet annPhoto.people ["Ann", "Cara"]) "Ann"
          = max (countOcc annPhoto.people "Ann") 1)
    ∧ ("Ann" ∉ ["Ann", "Cara"] → countOcc (addToSet annPhoto.people ["Ann", "Cara"]) "Ann"
          = countOcc annPhoto.people "Ann")
    ∧ (identifyPeople sampleDB "u1" ["Ann", "Cara"] 5).2.1 = 1
    ∧ ((identifyPeople sampleDB "u1" ["Ann", "Cara"] 5).2.2
        = if { annPhoto with people := addToSet annPhoto.people ["Ann", "Cara"], updatedAt := some 5 } = annPhoto then 0 else 1) :=
  identifyPeople_photo_update sampleDB "u1" ["Ann", "Cara"] 5 annPhoto "Ann"
    (by decide)

/-- Handler `create_person` (src/main.py lines 109-115): inserts a person
document holding exactly the fields `name`, `alias` (possibly null) and
`photo_count` 0. Modelled from the spec: `create_document` (database.py,
not in src/) appends the record to the collection. -/
def createPerson (db : DB) (nm : String) (aliasArg : Option String) : DB :=
  { db with persons := db.persons
      ++ [{ name := nm, aliasVal := some aliasArg, photoCount := 0 }] }

/-- C10: `create_person` always inserts a record with exactly the fields
`name`, `alias` (the supplied value, possibly null) and `photo_count` 0;
the identify path's upsert, when no person with the queried name exists,
appends a record with `photo_count` 1 and no `alias` field at all
(`aliasVal = none` encodes field absence). -/
theorem createPerson_and_identify_upsert_fields
    (db : DB) (nm : String) (aliasArg : Option String)
    (ps : List Person) (n : String)
    (habs : firstPersonCount ps n = none) :
    (createPerson db nm aliasArg).persons
        = db.persons ++ [{ name := nm, aliasVal := some aliasArg, photoCount := 0 }]
    ∧ incPerson ps n = ps ++ [{ name := n, aliasVal := none, photoCount := 1 }] := by
  refine ⟨rfl, ?_⟩
  induction ps with
  | nil => rfl
  | cons p rest ih =>
    rw [firstPersonCount] at habs
    by_cases hn : p.name = n
    · rw [if_pos hn] at habs
      cases habs
    · rw [if_neg hn] at habs
      rw [incPerson, if_neg hn, ih habs]
      rfl

/-- Witness for C10 at concrete inputs: a fresh store, a person created
with an alias, and an upsert of the unseen name "Cara". -/
theorem createPerson_and_identify_upsert_fields_witness :
    (createPerson sampleDB "Zoe" (some "Z")).persons
        = sampleDB.persons
            ++ [{ name := "Zoe", aliasVal := some (some "Z"), photoCount := 0 }]
    ∧ incPerson sampleDB.persons "Cara"
        = sampleDB.persons ++ [{ name := "Cara", aliasVal := none, photoCount := 1 }] :=
  createPerson_and_identify_upsert_fields sampleDB "Zoe" (some "Z")
    sampleDB.persons "Cara" (by decide)

/-- The five fixed demo photos of `seed_mock` (src/main.py lines 182-218). -/
def seedPhotoList : List Photo :=
  [{ url := "https://images.unsplash.com/photo-1529626455594-4ff0802cfb7e?w=800",
     filename := "friends-park.jpg", place := some "Central Park",
     year := some 2019, people := ["Alice", "Bob"] },
   { url := "https://images.unsplash.com/photo-1544005313-94ddf0286df2?w=800",
     filename := "portrait-alice.jpg", place := some "Studio",
     year := some 2020, people := ["Alice"] },
   { url := "https://images.unsplash.com/photo-1517841905240-472988babdf9?w=800",
     filename := "dog-walk.jpg", place := some "Brooklyn",
     year := some 2018, people := ["Bob"] },
   { url := "https://images.unsplash.com/photo-1500648767791-00dcc994a43e?w=800",
     filename := "city-trip.jpg", place := some "Tokyo",
     year := some 2023, people := ["Charlie", "Dana"] },
   { url := "https://images.unsplash.com/photo-1500530855697-b586d89ba3ee?w=800",
     filename := "mountain-hike.jpg", place := some "Alps",
     year := some 2021, people := ["Alice", "Charlie"] }]

/-- Modelled from the spec: the `find_one` existence check by exact url in
the seed loop (src/main.py line 222). -/
def urlExists (photos : List Photo) (u : String) : Bool :=
  photos.any (fun q => q.url == u)

/-- The insertion loop of `seed_mock` (lines 220-227): each demo photo
whose url is not yet present is stamped with `created_at` and appended;
returns the new photo collection and the number of inserts. -/
def insertSeedPhotos (photos : List Photo) (ps : List Photo) (now : Nat) :
    List Photo × Nat :=
  match ps with
  | [] => (photos, 0)
  | p :: rest =>
    if urlExists photos p.url then insertSeedPhotos photos rest now
    else
      let r := insertSeedPhotos (photos ++ [{ p with createdAt := some now }]) rest now
      (r.1, r.2 + 1)

/-- One step of the Python `counts` dictionary update
`counts[name] = counts.get(name, 0) + 1`, on an insertion-ordered
association list. -/
def bumpCount (acc : List (String × Int)) (n : String) : List (String × Int) :=
  match acc with
  | [] => [(n, 1)]
  | e :: rest => if e.1 = n then (e.1, e.2 + 1) :: rest else e :: bumpCount rest n

/-- The recompute scan of `seed_mock` (lines 230-233): tally every
occurrence of every name across all photos' people lists. -/
def tallyPeople (photos : List Photo) : List (String × Int) :=
  photos.foldl (fun acc p => p.people.foldl bumpCount acc) []

/-- Modelled from the spec: pymongo `update_one` with `$set photo_count c`
and `upsert=True` (line 235) — the first person named `n` gets its count
overwritten; when none exists a document holding only the queried `name`
and the set counter is inserted. -/
def setPersonCount (ps : List Person) (n : String) (c : Int) : List Person :=
  match ps with
  | [] => [{ name := n, aliasVal := none, photoCount := c }]
  | p :: rest =>
    if p.name = n then { p with photoCount := c } :: rest
    else p :: setPersonCount rest n c

/-- The person-counter overwrite loop of `seed_mock` (lines 234-235). -/
def setPersonCounts (ps : List Person) (counts : List (String × Int)) :
    List Person :=
  counts.foldl (fun acc e => setPersonCount acc e.1 e.2) ps

/-- Handler `seed_mock` (src/main.py lines 177-238): insert the missing
demo photos, then recompute every referenced person's `photo_count` from
scratch; returns the new store, the insert count and the tally. -/
def seedMock (db : DB) (now : Nat) : DB × Nat × List (String × Int) :=
  let r := insertSeedPhotos db.photos seedPhotoList now
  let counts := tallyPeople r.1
  ({ photos := r.1, persons := setPersonCounts db.persons counts }, r.2, counts)

/-- Total number of occurrences of the name `n` across all photos' people
lists (what the recompute of `seed_mock` actually tallies). -/
def occCount (photos : List Photo) (n : String) : Nat :=
  match photos with
  | [] => 0
  | p :: rest => countOcc p.people n + occCount rest n

/-- Number of photo records whose people list contains the name `n` (what
claim C6 asserts `photo_count` equals). -/
def photosContaining (photos : List Photo) (n : String) : Nat :=
  match photos with
  | [] => 0
  | p :: rest => (if n ∈ p.people then 1 else 0) + photosContaining rest n

/-- First value stored under key `n` in an association list of counts. -/
def lookupCount (counts : List (String × Int)) (n : String) : Option Int :=
  match counts with
  | [] => none
  | e :: rest => if e.1 = n then some e.2 else lookupCount rest n

/-- Keys of an association list of counts, in order. -/
def countKeys (counts : List (String × Int)) : List String :=
  counts.map Prod.fst

theorem lookupCount_bumpCount_same (acc : List (String × Int)) (n : String) :
    lookupCount (bumpCount acc n) n = some ((lookupCount acc n).getD 0 + 1) := by
  induction acc with
  | nil => simp [bumpCount, lookupCount]
  | cons e rest ih =>
    by_cases h : e.1 = n
    · simp [bumpCount, lookupCount, h]
    · simp [bumpCount, lookupCount, h, ih]

theorem lookupCount_bumpCount_ne (acc : List (String × Int)) (n m : String)
    (h : m ≠ n) :
    lookupCount (bumpCount acc n) m = lookupCount acc m := by
  induction acc with
  | nil => simp [bumpCount, lookupCount, Ne.symm h]
  | cons e rest ih =>
    by_cases he : e.1 = n
    · simp [bumpCount, lookupCount, he, Ne.symm h]
    · simp [bumpCount, lookupCount, he, ih]

theorem lookupCount_foldl_bump (names : List String)
    (acc : List (String × Int)) (n : String) :
    lookupCount (names.foldl bumpCount acc) n
      = optCount (lookupCount acc n) (countOcc names n) := by
  induction names generalizing acc with
  | nil => simp [optCount, countOcc]
  | cons m rest ih =>
    rw [List.foldl_cons, ih]
    by_cases hm : m = n
    · subst hm
      rw [lookupCount_bumpCount_same]
      cases lookupCount acc m <;>
        by_cases hk : countOcc rest m = 0 <;>
          simp [optCount, countOcc, hk] <;> omega
    · rw [lookupCount_bumpCount_ne acc m n (Ne.symm hm)]
      have : countOcc (m :: rest) n = countOcc rest n := by
        simp [countOcc, hm]
      rw [this]

theorem optCount_optCount (o : Option Int) (j k : Nat) :
    optCount (optCount o j) k = optCount o (j + k) := by
  by_cases hj : j = 0 <;> by_cases hk : k = 0 <;>
    cases o <;> simp [optCount, hj, hk] <;> omega

theorem lookupCount_tally_aux (photos : List Photo)
    (acc : List (String × Int)) (n : String) :
    lookupCount (photos.foldl (fun acc p => p.people.foldl bumpCount acc) acc) n
      = optCount (lookupCount acc n) (occCount photos n) := by
  induction photos generalizing acc with
  | nil => simp [optCount, occCount]
  | cons p rest ih =>
    rw [List.foldl_cons, ih, lookupCount_foldl_bump, optCount_optCount]
    rfl

theorem lookupCount_tallyPeople (photos : List Photo) (n : String) :
    lookupCount (tallyPeople photos) n
      = optCount none (occCount photos n) := by
  rw [tallyPeople, lookupCount_tally_aux]
  rfl

theorem countKeys_bumpCount (acc : List (String × Int)) (n : String) :
    countKeys (bumpCount acc n)
      = if n ∈ countKeys acc then countKeys acc else countKeys acc ++ [n] := by
  induction acc with
  | nil => simp [bumpCount, countKeys]
  | cons e rest ih =>
    by_cases he : e.1 = n
    · simp [bumpCount, countKeys, he]
    · simp only [bumpCount, if_neg he, countKeys, List.map_cons] at ih ⊢
      rw [ih]
      by_cases hm : n ∈ List.map Prod.fst rest <;>
        simp [hm, he, Ne.symm he]

theorem nodup_append_singleton {l : List String} {a : String}
    (h : l.Nodup) (ha : a ∉ l) : (l ++ [a]).Nodup := by
  induction l with
  | nil => simp
  | cons x rest ih =>
    rw [List.nodup_cons] at h
    have hx : a ∉ rest := fun hm => ha (List.mem_cons_of_mem x hm)
    rw [List.cons_append, List.nodup_cons]
    refine ⟨?_, ih h.2 hx⟩
    intro hmem
    rcases List.mem_append.1 hmem with hmem | hmem
    · exact h.1 hmem
    · rcases List.mem_singleton.1 hmem with rfl
      exact ha (List.mem_cons_self x rest)

theorem nodup_countKeys_bumpCount (acc : List (String × Int)) (n : String)
    (h : (countKeys acc).Nodup) : (countKeys (bumpCount acc n)).Nodup := by
  rw [countKeys_bumpCount]
  by_cases hm : n ∈ countKeys acc
  · simpa [hm] using h
  · simpa [hm] using nodup_append_singleton h hm

theorem nodup_countKeys_foldl_bump (names : List String)
    (acc : List (String × Int)) (h : (countKeys acc).Nodup) :
    (countKeys (names.foldl bumpCount acc)).Nodup := by
  induction names generalizing acc with
  | nil => exact h
  | cons m rest ih =>
    rw [List.foldl_cons]
    exact ih _ (nodup_countKeys_bumpCount acc m h)

theorem nodup_countKeys_tallyPeople (photos : List Photo) :
    (countKeys (tallyPeople photos)).Nodup := by
  have haux : ∀ acc : List (String × Int), (countKeys acc).Nodup →
      (countKeys (photos.foldl (fun acc p => p.people.foldl bumpCount acc) acc)).Nodup := by
    induction photos with
    | nil => intro acc h; exact h
    | cons p rest ih =>
      intro acc h
      rw [List.foldl_cons]
      exact ih _ (nodup_countKeys_foldl_bump p.people acc h)
  exact haux [] (by simp [countKeys])

theorem firstPersonCount_setPersonCount_same (ps : List Person) (n : String)
    (c : Int) : firstPersonCount (setPersonCount ps n c) n = some c := by
  induction ps with
  | nil => simp [setPersonCount, firstPersonCount]
  | cons p rest ih =>
    by_cases h : p.name = n
    · simp [setPersonCount, firstPersonCount, h]
    · simp [setPersonCount, firstPersonCount, h, ih]

theorem firstPersonCount_setPersonCount_ne (ps : List Person) (n m : String)
    (c : Int) (h : m ≠ n) :
    firstPersonCount (setPersonCount ps n c) m = firstPersonCount ps m := by
  induction ps with
  | nil => simp [setPersonCount, firstPersonCount, Ne.symm h]
  | cons p rest ih =>
    by_cases hp : p.name = n
    · simp [setPersonCount, firstPersonCount, hp, Ne.symm h]
    · simp [setPersonCount, firstPersonCount, hp, ih]

theorem firstPersonCount_setPersonCounts_notin (counts : List (String × Int))
    (ps : List Person) (n : String) (h : n ∉ countKeys counts) :
    firstPersonCount (setPersonCounts ps counts) n = firstPersonCount ps n := by
  induction counts generalizing ps with
  | nil => rfl
  | cons e rest ih =>
    have he : n ≠ e.1 := by
      intro hn
      exact h (hn ▸ List.mem_cons_self e.1 (countKeys rest))
    have hr : n ∉ countKeys rest := by
      intro hn
      exact h (List.mem_cons_of_mem e.1 hn)
    rw [setPersonCounts, List.foldl_cons]
    have := ih (setPersonCount ps e.1 e.2) hr
    rw [setPersonCounts] at this
    rw [this, firstPersonCount_setPersonCount_ne ps e.1 n e.2 he]

theorem firstPersonCount_setPersonCounts (counts : List (String × Int))
    (ps : List Person) (n : String) (c : Int)
    (hnd : (countKeys counts).Nodup) (hc : lookupCount counts n = some c) :
    firstPersonCount (setPersonCounts ps counts) n = some c := by
  induction counts generalizing ps with
  | nil => cases hc
  | cons e rest ih =>
    rw [countKeys, List.map_cons, List.nodup_cons] at hnd
    rw [setPersonCounts, List.foldl_cons]
    by_cases he : e.1 = n
    · rw [lookupCount, if_pos he] at hc
      injection hc with hc
      subst hc
      subst he
      have hnotin : e.1 ∉ countKeys rest := hnd.1
      have := firstPersonCount_setPersonCounts_notin rest
        (setPersonCount ps e.1 e.2) e.1 hnotin
      rw [setPersonCounts] at this
      rw [this, firstPersonCount_setPersonCount_same]
    · rw [lookupCount, if_neg he] at hc
      have := ih (setPersonCount ps e.1 e.2) hnd.2 hc
      rw [setPersonCounts] at this
      rw [this]

theorem urlExists_append (photos : List Photo) (x : Photo) (u : String)
    (h : urlExists photos u = true) : urlExists (photos ++ [x]) u = true := by
  simp only [urlExists, List.any_append, Bool.or_eq_true]
  exact Or.inl h

theorem urlExists_insertSeedPhotos (photos ps : List Photo) (now : Nat)
    (u : String) (h : urlExists photos u = true) :
    urlExists (insertSeedPhotos photos ps now).1 u = true := by
  induction ps generalizing photos with
  | nil => exact h
  | cons p rest ih =>
    rw [insertSeedPhotos]
    by_cases hp : urlExists photos p.url
    · rw [if_pos hp]
      exact ih photos h
    · rw [if_neg hp]
      exact ih _ (urlExists_append photos _ u h)

theorem insertSeedPhotos_urls_present (photos ps : List Photo) (now : Nat) :
    ∀ p ∈ ps, urlExists (insertSeedPhotos photos ps now).1 p.url = true := by
  induction ps generalizing photos with
  | nil => intro p hp; cases hp
  | cons q rest ih =>
    intro p hp
    rw [insertSeedPhotos]
    by_cases hq : urlExists photos q.url
    · rw [if_pos hq]
      rcases List.mem_cons.1 hp with rfl | hp
      · exact urlExists_insertSeedPhotos photos rest now p.url hq
      · exact ih photos p hp
    · rw [if_neg hq]
      rcases List.mem_cons.1 hp with rfl | hp
      · refine urlExists_insertSeedPhotos _ rest now p.url ?_
        simp [urlExists]
      · exact ih _ p hp

theorem insertSeedPhotos_noop (photos ps : List Photo) (now : Nat)
    (h : ∀ p ∈ ps, urlExists photos p.url = true) :
    insertSeedPhotos photos ps now = (photos, 0) := by
  induction ps with
  | nil => rfl
  | cons q rest ih =>
    rw [insertSeedPhotos, if_pos (h q (List.mem_cons_self q rest))]
    exact ih fun p hp => h p (List.mem_cons_of_mem q hp)

theorem insertSeedPhotos_mem (photos ps : List Photo) (now : Nat) (q : Photo)
    (hq : q ∈ (insertSeedPhotos photos ps now).1) :
    q ∈ photos ∨ ∃ p ∈ ps, q = { p with createdAt := some now } := by
  induction ps generalizing photos with
  | nil => exact Or.inl hq
  | cons p rest ih =>
    rw [insertSeedPhotos] at hq
    by_cases hp : urlExists photos p.url
    · rw [if_pos hp] at hq
      rcases ih photos hq with h | ⟨r, hr, hqr⟩
      · exact Or.inl h
      · exact Or.inr ⟨r, List.mem_cons_of_mem p hr, hqr⟩
    · rw [if_neg hp] at hq
      rcases ih _ hq with h | ⟨r, hr, hqr⟩
      · rcases List.mem_append.1 h with h | h
        · exact Or.inl h
        · rcases List.mem_singleton.1 h with rfl
          exact Or.inr ⟨p, List.mem_cons_self p rest, rfl⟩
      · exact Or.inr ⟨r, List.mem_cons_of_mem p hr, hqr⟩

theorem occCount_eq_photosContaining (photos : List Photo) (n : String)
    (h : ∀ p ∈ photos, p.people.Nodup) :
    occCount photos n = photosContaining photos n := by
  induction photos with
  | nil => rfl
  | cons p rest ih =>
    have hp := h p (List.mem_cons_self p rest)
    have hr : ∀ q ∈ rest, q.people.Nodup :=
      fun q hq => h q (List.mem_cons_of_mem p hq)
    rw [occCount, photosContaining, ih hr]
    congr 1
    by_cases hm : n ∈ p.people
    · have h1 := countOcc_pos p.people n hm
      have h2 := countOcc_le_one_of_nodup p.people n hp
      rw [if_pos hm]
      omega
    · rw [if_neg hm, countOcc_eq_zero p.people n hm]

theorem seedPhotoList_people_nodup :
    ∀ p ∈ seedPhotoList, p.people.Nodup := by decide

theorem seedMock_photos_people_nodup (db : DB) (now : Nat)
    (h : ∀ p ∈ db.photos, p.people.Nodup) :
    ∀ q ∈ ((seedMock db now).1).photos, q.people.Nodup := by
  intro q hq
  have hq2 : q ∈ (insertSeedPhotos db.photos seedPhotoList now).1 := hq
  rcases insertSeedPhotos_mem db.photos seedPhotoList now q hq2 with hm | ⟨p, hp, rfl⟩
  · exact h q hm
  · exact seedPhotoList_people_nodup p hp

/-- C6 (amended): running `seed_mock` twice leaves exactly the same photo
records (hence the same number) as running it once, and after each run
every referenced person's `photo_count` equals the total number of
occurrences of the name across photos' people lists — both
unconditionally; that total equals the number of photo records whose
people list contains the name whenever no photo lists the same name
twice, stated as the final implication. -/
theorem seedMock_idempotent_and_recount
    (db : DB) (now now' : Nat) (n : String)
    (href : occCount ((seedMock db now).1).photos n ≠ 0) :
    ((seedMock ((seedMock db now).1) now').1).photos = ((seedMock db now).1).photos
    ∧ ((seedMock ((seedMock db now).1) now').1).photos.length
        = ((seedMock db now).1).photos.length
    ∧ firstPersonCount ((seedMock db now).1).persons n
        = some ((occCount ((seedMock db now).1).photos n : Nat) : Int)
    ∧ firstPersonCount ((seedMock ((seedMock db now).1) now').1).persons n
        = some ((occCount
            ((seedMock ((seedMock db now).1) now').1).photos n : Nat) : Int)
    ∧ ((∀ p ∈ db.photos, p.people.Nodup) →
        firstPersonCount ((seedMock db now).1).persons n
          = some ((photosContaining ((seedMock db now).1).photos n : Nat) : Int)
        ∧ firstPersonCount ((seedMock ((seedMock db now).1) now').1).persons n
          = some ((photosContaining
              ((seedMock ((seedMock db now).1) now').1).photos n : Nat) : Int)) := by
  have hall : ∀ p ∈ seedPhotoList,
      urlExists ((seedMock db now).1).photos p.url = true :=
    fun p hp => insertSeedPhotos_urls_present db.photos seedPhotoList now p hp
  have hnoop : insertSeedPhotos ((seedMock db now).1).photos seedPhotoList now'
      = (((seedMock db now).1).photos, 0) :=
    insertSeedPhotos_noop _ _ _ hall
  have heq : ((seedMock ((seedMock db now).1) now').1).photos
      = ((seedMock db now).1).photos := by
    show (insertSeedPhotos ((seedMock db now).1).photos seedPhotoList now').1
        = ((seedMock db now).1).photos
    rw [hnoop]
  have hlk : lookupCount (tallyPeople ((seedMock db now).1).photos) n
      = some ((occCount ((seedMock db now).1).photos n : Nat) : Int) := by
    rw [lookupCount_tallyPeople]
    simp [optCount, href]
  have hc1 : firstPersonCount ((seedMock db now).1).persons n
      = some ((occCount ((seedMock db now).1).photos n : Nat) : Int) :=
    firstPersonCount_setPersonCounts _ _ _ _ (nodup_countKeys_tallyPeople _) hlk
  have hc2 : firstPersonCount ((seedMock ((seedMock db now).1) now').1).persons n
      = some ((occCount ((seedMock db now).1).photos n : Nat) : Int) := by
    have hpersons2 : ((seedMock ((seedMock db now).1) now').1).persons
        = setPersonCounts ((seedMock db now).1).persons
            (tallyPeople (insertSeedPhotos ((seedMock db now).1).photos
              seedPhotoList now').1) := rfl
    rw [hpersons2, hnoop]
    exact firstPersonCount_setPersonCounts _ _ _ _
      (nodup_countKeys_tallyPeople _) hlk
  refine ⟨heq, by rw [heq], hc1, by rw [heq]; exact hc2, ?_⟩
  intro hnodup
  have hnodup1 := seedMock_photos_people_nodup db now hnodup
  have hocc := occCount_eq_photosContaining ((seedMock db now).1).photos n hnodup1
  refine ⟨?_, ?_⟩
  · rw [hc1, hocc]
  · rw [heq, hc2, hocc]

/-- Witness for C6 (amended) at a concrete store: seed `sampleDB` twice and
check the name "Alice" (referenced by three seeded photos). -/
theorem seedMock_idempotent_and_recount_witness :
    ((seedMock ((seedMock sampleDB 0).1) 1).1).photos = ((seedMock sampleDB 0).1).photos
    ∧ ((seedMock ((seedMock sampleDB 0).1) 1).1).photos.length
        = ((seedMock sampleDB 0).1).photos.length
    ∧ firstPersonCount ((seedMock sampleDB 0).1).persons "Alice"
        = some ((occCount ((seedMock sampleDB 0).1).photos "Alice" : Nat) : Int)
    ∧ firstPersonCount ((seedMock ((seedMock sampleDB 0).1) 1).1).persons "Alice"
        = some ((occCount
            ((seedMock ((seedMock sampleDB 0).1) 1).1).photos "Alice" : Nat) : Int)
    ∧ ((∀ p ∈ sampleDB.photos, p.people.Nodup) →
        firstPersonCount ((seedMock sampleDB 0).1).persons "Alice"
          = some ((photosContaining ((seedMock sampleDB 0).1).photos "Alice" : Nat) : Int)
        ∧ firstPersonCount ((seedMock ((seedMock sampleDB 0).1) 1).1).persons "Alice"
          = some ((photosContaining
              ((seedMock ((seedMock sampleDB 0).1) 1).1).photos "Alice" : Nat) : Int)) :=
  seedMock_idempotent_and_recount sampleDB 0 1 "Alice" (by decide)

/-- Store holding one photo whose people list names "Alice" twice, as
`add_photo` accepts (its `people` payload is an arbitrary list). -/
def dupTagDB : DB :=
  { photos := [{ url := "x", filename := "x.jpg", place := none, year := none,
                 people := ["Alice", "Alice"] }],
    persons := [] }

/-- C6 counterexample: seeding a store that already holds a photo listing
"Alice" twice sets Alice's `photo_count` to 5 (total occurrences), while
only 4 photo records contain "Alice" — refuting the claim that after the
run every referenced person's `photo_count` equals the number of photo
records whose people list contains the name. -/
theorem seedMock_photoCount_overcounts :
    firstPersonCount ((seedMock dupTagDB 0).1).persons "Alice" = some 5
    ∧ photosContaining ((seedMock dupTagDB 0).1).photos "Alice" = 4
    ∧ firstPersonCount ((seedMock dupTagDB 0).1).persons "Alice"
        ≠ some ((photosContaining
            ((seedMock dupTagDB 0).1).photos "Alice" : Nat) : Int) := by
  decide

/-- Values a stored document field can hold, as far as the handlers in
src/main.py produce them: null, strings, integers, datetimes (opaque
instants), ObjectIds (opaque identifiers) and lists of strings. -/
inductive MVal
  | mNull
  | mStr (s : String)
  | mInt (n : Int)
  | mDT (t : Nat)
  | mOid (k : Nat)
  | mStrList (l : List String)
deriving DecidableEq

/-- A stored document: ordered key/value pairs, as a Python dict. -/
abbrev MDoc := List (String × MVal)

/-- First value stored under key `k` in a document. -/
def lookupVal (doc : MDoc) (k : String) : Option MVal :=
  match doc with
  | [] => none
  | e :: rest => if e.1 = k then some e.2 else lookupVal rest k

/-- Modelled from the spec: `str(ObjectId)` — an injective rendering of the
opaque identifier. -/
def oidStr (k : Nat) : String := toString k

/-- Modelled from the spec: `datetime.isoformat` — an injective ISO-8601
rendering of the instant (the Python stdlib renderer is not part of the
repository). -/
def isoformat (t : Nat) : String := "iso:" ++ toString t

/-- Per-value step of the datetime conversion loop in `serialize`
(src/main.py lines 33-35): datetimes become their ISO string, everything
else is unchanged. -/
def renderVal : MVal → MVal
  | .mDT t => .mStr (isoformat t)
  | v => v

/-- Utility `serialize` (src/main.py lines 24-36): a falsy document is
returned as is; an ObjectId `_id` is removed and re-exposed as a string
under the new key `id` (appended, as Python dict insertion order does);
then every datetime value is rendered in ISO-8601. -/
def serialize (doc : MDoc) : MDoc :=
  match doc with
  | [] => []
  | _ :: _ =>
    let doc1 : MDoc :=
      match lookupVal doc "_id" with
      | some (.mOid k) =>
        (doc.filter (fun e => e.1 != "_id")) ++ [("id", .mStr (oidStr k))]
      | _ => doc
    doc1.map (fun e => (e.1, renderVal e.2))

/-- Modelled from the spec: Python `datetime.fromisoformat` (stdlib, not in
the repository) — accepts strings starting with a `YYYY-MM-DD` date and
returns `none` otherwise; the accepted digits are folded into an opaque
instant. -/
def fromisoformat (s : String) : Option Nat :=
  match s.data with
  | y1 :: y2 :: y3 :: y4 :: '-' :: m1 :: m2 :: '-' :: d1 :: d2 :: _ =>
    if [y1, y2, y3, y4, m1, m2, d1, d2].all Char.isDigit then
      some (([y1, y2, y3, y4, m1, m2, d1, d2].map Char.toNat).foldl
        (fun a c => a * 10 + (c - 48)) 0)
    else none
  | _ => none

/-- The `taken_at` conversion of `add_photo` (src/main.py lines 75-79): a
truthy (non-null, non-empty) string is parsed as ISO-8601, with a parse
failure stored as null; a falsy value is left exactly as supplied (null
stays null, the empty string stays the empty string). -/
def storedTakenAt (takenAt : Option String) : MVal :=
  match takenAt with
  | none => .mNull
  | some s =>
    if s != "" then
      match fromisoformat s with
      | some t => .mDT t
      | none => .mNull
    else .mStr s

theorem lookupVal_filter_ne (doc : MDoc) (k : String) (hk : k ≠ "_id") :
    lookupVal (doc.filter (fun e => e.1 != "_id")) k = lookupVal doc k := by
  induction doc with
  | nil => rfl
  | cons e rest ih =>
    rw [List.filter_cons]
    by_cases he : e.1 = "_id"
    · have hek : e.1 ≠ k := fun h => hk (h ▸ he)
      simp [he, lookupVal, hek, Ne.symm hk, ih]
    · simp [he, lookupVal, ih]

theorem lookupVal_filter_id (doc : MDoc) :
    lookupVal (doc.filter (fun e => e.1 != "_id")) "_id" = none := by
  induction doc with
  | nil => rfl
  | cons e rest ih =>
    rw [List.filter_cons]
    by_cases he : e.1 = "_id"
    · simp [he, ih]
    · simp [he, lookupVal, ih]

theorem lookupVal_append (d1 d2 : MDoc) (k : String) :
    lookupVal (d1 ++ d2) k
      = match lookupVal d1 k with
        | some v => some v
        | none => lookupVal d2 k := by
  induction d1 with
  | nil => rfl
  | cons e rest ih =>
    rw [List.cons_append, lookupVal, lookupVal]
    by_cases he : e.1 = k
    · rw [if_pos he, if_pos he]
    · rw [if_neg he, if_neg he, ih]

theorem lookupVal_map_render (doc : MDoc) (k : String) :
    lookupVal (doc.map (fun e => (e.1, renderVal e.2))) k
      = (lookupVal doc k).map renderVal := by
  induction doc with
  | nil => rfl
  | cons e rest ih =>
    rw [List.map_cons, lookupVal, lookupVal]
    by_cases he : e.1 = k
    · simp only [if_pos he]
      rfl
    · simp only [if_neg he, ih]

/-- C8 (amended): on every serialized document the ObjectId `_id` field is
removed and re-exposed as the public string field `id`, every other field
survives with datetimes rendered as ISO-8601 strings; on photo creation a
supplied non-empty `taken_at` that does not parse as ISO-8601 is silently
stored as null (while a supplied empty string is stored unchanged as the
empty string — see the counterexample). -/
theorem serialize_spec
    (doc : MDoc) (k : Nat) (key : String) (v : MVal) (s : String)
    (hid : lookupVal doc "_id" = some (.mOid k))
    (hnoid : lookupVal doc "id" = none)
    (hkey : key ≠ "_id")
    (hv : lookupVal doc key = some v)
    (hs : s ≠ "")
    (hparse : fromisoformat s = none) :
    lookupVal (serialize doc) "id" = some (.mStr (oidStr k))
    ∧ lookupVal (serialize doc) "_id" = none
    ∧ lookupVal (serialize doc) key = some (renderVal v)
    ∧ storedTakenAt (some s) = .mNull := by
  have hser : serialize doc
      = ((doc.filter (fun e => e.1 != "_id"))
          ++ [(("id" : String), MVal.mStr (oidStr k))]).map
            (fun e : String × MVal => (e.1, renderVal e.2)) := by
    cases doc with
    | nil => cases hid
    | cons e rest =>
      simp only [serialize]
      rw [hid]
  refine ⟨?_, ?_, ?_, ?_⟩
  · rw [hser, lookupVal_map_render, lookupVal_append]
    have hdid : ("id" : String) ≠ "_id" := by decide
    rw [lookupVal_filter_ne doc "id" hdid, hnoid]
    simp [lookupVal, renderVal]
  · rw [hser, lookupVal_map_render, lookupVal_append, lookupVal_filter_id]
    have : lookupVal [(("id" : String), MVal.mStr (oidStr k))] "_id" = none := by
      simp [lookupVal]
    rw [this]
    rfl
  · rw [hser, lookupVal_map_render, lookupVal_append,
      lookupVal_filter_ne doc key hkey, hv]
    rfl
  · have hbs : (s != "") = true := bne_iff_ne.2 hs
    simp only [storedTakenAt, hbs, if_pos]
    rw [hparse]

/-- Sample stored photo document used by the C8 witness. -/
def sampleDoc : MDoc :=
  [("_id", .mOid 5), ("url", .mStr "u1"), ("taken_at", .mDT 7)]

/-- Witness for C8 (amended) at a concrete document and the unparseable
timestamp "not-a-date". -/
theorem serialize_spec_witness :
    lookupVal (serialize sampleDoc) "id" = some (.mStr (oidStr 5))
    ∧ lookupVal (serialize sampleDoc) "_id" = none
    ∧ lookupVal (serialize sampleDoc) "taken_at" = some (renderVal (.mDT 7))
    ∧ storedTakenAt (some "not-a-date") = .mNull :=
  serialize_spec sampleDoc 5 "taken_at" (.mDT 7) "not-a-date"
    (by decide) (by decide) (by decide) (by decide) (by decide) (by decide)

/-- C8 counterexample: the empty string is a supplied `taken_at` value that
is not parseable as ISO-8601, yet `add_photo` stores it unchanged as the
empty string, not as null — refuting the claim that every unparseable
supplied `taken_at` is stored as absent. -/
theorem storedTakenAt_empty_not_null :
    fromisoformat "" = none
    ∧ storedTakenAt (some "") = MVal.mStr ""
    ∧ MVal.mStr "" ≠ MVal.mNull := by
  decide

end PhotoSorter
